import Mathlib

/-!
# GitDiffer — verification of the change-record data model, the Presenter, and
# the spec-modelled Extractor

Shallow embedding of the GitDiffer repository.  The Presenter (the web viewer,
`src/unnamed/part_001`) is embedded directly from its JavaScript source:
pure helpers (`escapeHtml`, `groupBy`, the filter predicate of `applyFilters`,
`computePage`) become Lean functions, and the module-level mutable UI state
(`DATA`, `LAST_FILTERED`, `PAGE`, `PAGE_SIZE` and the three filter inputs)
becomes an explicit `ViewerState` record threaded through the event handlers.
`JSON.parse` is a browser builtin, so a handler receives its outcome as an
`Except String JsonRoot` value (`.error` models the thrown exception).
The Extractor (`gitdiffer.py`) is not part of the sources; where a claim needs
it, it is modelled from the spec (each such definition says so in its doc
comment).
-/

namespace GitDiffer

/-- A Change Record, the sole entity of the data model (spec §3; consumed
duck-typed by the Presenter).  Fields that can be absent or `null` in the
JSON objects are `Option`s; `old_lines`/`new_lines` distinguish an absent
field (`none`) from an empty list (`some []`). -/
structure Record where
  file : String
  change_type : String
  context : String
  line_old : Option Int
  line_new : Option Int
  property : Option String
  old : Option String
  new : Option String
  old_lines : Option (List String)
  new_lines : Option (List String)
deriving DecidableEq

/-! ## escapeHtml (part_001 line 24) -/

/-- One `replaceAll` pass with a single-character search string:
every occurrence of `c` is replaced by the string `rep`. -/
def replaceAllChar (c : Char) (rep : List Char) : List Char → List Char
  | [] => []
  | x :: xs => if x = c then rep ++ replaceAllChar c rep xs else x :: replaceAllChar c rep xs

/-- `escapeHtml` from the source:
`(s ?? '').toString().replaceAll('&','&amp;').replaceAll('<','&lt;').replaceAll('>','&gt;')`.
`none` models both `null` and `undefined` (both collapse to `''` via `?? ''`). -/
def escapeHtml (s : Option String) : String :=
  String.mk (replaceAllChar '>' "&gt;".data
    (replaceAllChar '<' "&lt;".data
      (replaceAllChar '&' "&amp;".data (s.getD "").data)))

/-! ## groupBy (part_001 line 25)

`const groupBy = (arr, key) => arr.reduce((m, x) => ((m[x[key]] ||= []).push(x), m), {});`

The accumulator object is modelled as an association list in insertion order;
`m[k] ||= []` followed by `push(x)` is `insertGrouped`.  JavaScript property
keys are strings, so the key selector is `String`-valued (the string coercion
of `x[key]`).  JavaScript enumerates integer-like keys of an object first, but
that affects only key enumeration order, never a group's contents, and the one
consumer (`renderFiles`) re-sorts the keys anyway. -/

/-- Append `x` to the group named `k`, creating the group at the end when absent. -/
def insertGrouped {α : Type} (k : String) (x : α) : List (String × List α) → List (String × List α)
  | [] => [(k, [x])]
  | (k', xs) :: rest =>
      if k' = k then (k', xs ++ [x]) :: rest else (k', xs) :: insertGrouped k x rest

/-- `groupBy` from the source, over a string-valued key selector. -/
def groupBy {α : Type} (key : α → String) (arr : List α) : List (String × List α) :=
  arr.foldl (fun m x => insertGrouped (key x) x m) []

/-- Object property lookup `m[k]` on the association-list model. -/
def lookupGroup {α : Type} (k : String) : List (String × List α) → Option (List α)
  | [] => none
  | (k', v) :: rest => if k' = k then some v else lookupGroup k rest

/-! ## Filtering (part_001 lines 164-179) -/

/-- `needle` is a prefix of `l` (character lists). -/
def isPrefixList : List Char → List Char → Bool
  | [], _ => true
  | _ :: _, [] => false
  | a :: as, b :: bs => a = b && isPrefixList as bs

/-- Substring containment on character lists, the semantics of
JavaScript `String.prototype.includes`. -/
def containsSub (nee : List Char) : List Char → Bool
  | [] => isPrefixList nee []
  | c :: rest => isPrefixList nee (c :: rest) || containsSub nee rest

/-- `hay.includes(nee)`. -/
def strIncludes (hay nee : String) : Bool :=
  containsSub nee.data hay.data

/-- `String.prototype.toLowerCase`, modelled on the character list
(ASCII case mapping). -/
def toLowerStr (s : String) : String := String.mk (s.data.map Char.toLower)

/-- A character removed by `String.prototype.trim` (ASCII whitespace). -/
def isTrimmedChar (c : Char) : Bool :=
  c = ' ' || c = '\t' || c = '\n' || c = '\r' || c = '\x0b' || c = '\x0c'

/-- `String.prototype.trim`, modelled on the character list. -/
def trimStr (s : String) : String :=
  String.mk (((s.data.dropWhile isTrimmedChar).reverse.dropWhile isTrimmedChar).reverse)

/-- Split a character list on a separator character (every occurrence). -/
def splitListOn (sep : Char) : List Char → List (List Char)
  | [] => [[]]
  | c :: rest =>
      if c = sep then [] :: splitListOn sep rest
      else
        match splitListOn sep rest with
        | [] => [[c]]
        | p :: ps => (c :: p) :: ps

/-- `s.endsWith(suffix)`, modelled on the character lists. -/
def endsWithStr (s suffix : String) : Bool :=
  isPrefixList suffix.data.reverse s.data.reverse

/-- Lexicographic comparison of character lists: the semantics of the default
JavaScript `Array.prototype.sort` comparison on strings. -/
def strLeChars : List Char → List Char → Bool
  | [], _ => true
  | _ :: _, [] => false
  | a :: as, b :: bs => if a < b then true else if b < a then false else strLeChars as bs

/-- Lexicographic string order used by the file-section sort. -/
def strLe (a b : String) : Bool := strLeChars a.data b.data

/-- A nullable string as it enters the haystack array: `null`/`undefined`
are falsy just like the empty string, so they collapse to `""` before the
`filter(Boolean)` step. -/
def optStr (o : Option String) : String := o.getD ""

/-- `(lines || []).join('\n')`. -/
def joinLines (o : Option (List String)) : String :=
  String.intercalate "\n" (o.getD [])

/-- The search haystack of `applyFilters`:
`[c.file, c.property, c.old, c.new, (c.old_lines||[]).join('\n'), (c.new_lines||[]).join('\n')].filter(Boolean).join(' ').toLowerCase()`. -/
def hay (c : Record) : String :=
  toLowerStr (String.intercalate " "
    (([c.file, optStr c.property, optStr c.old, optStr c.new,
       joinLines c.old_lines, joinLines c.new_lines]).filter (fun s => s ≠ "")))

/-- The filter predicate of `applyFilters`; `q` is the search-box text already
lower-cased and trimmed (the source computes `q` once before the closure):
`if (tf && c.change_type !== tf) return false; if (cf && c.context !== cf) return false;
if (!q) return true; return hay.includes(q);`. -/
def keepRecord (q tf cf : String) (c : Record) : Bool :=
  if tf ≠ "" ∧ c.change_type ≠ tf then false
  else if cf ≠ "" ∧ c.context ≠ cf then false
  else if q = "" then true
  else strIncludes (hay c) q

/-- Claim C1 read literally: the record is kept when the selected change-type
and context match and, for a non-empty search string, the lower-cased plain
concatenation (no separator) of `file`, `property`, `old`, `new`, the joined
`old_lines` and the joined `new_lines` contains the lower-cased, trimmed
search string.  `raw` is the untouched search-box text. -/
abbrev claimKeepLiteral (raw tf cf : String) (c : Record) : Prop :=
  (tf ≠ "" → c.change_type = tf) ∧
  (cf ≠ "" → c.context = cf) ∧
  (raw ≠ "" →
    strIncludes
      (toLowerStr (c.file ++ optStr c.property ++ optStr c.old ++ optStr c.new ++
        joinLines c.old_lines ++ joinLines c.new_lines))
      (trimStr (toLowerStr raw)) = true)

/-- Claim C1 as amended: same as `claimKeepLiteral` except that the haystack
is the space-separated join of the non-empty entries (null fields counting as
empty), exactly the `hay` the code builds. -/
abbrev claimKeepAmended (raw tf cf : String) (c : Record) : Prop :=
  (tf ≠ "" → c.change_type = tf) ∧
  (cf ≠ "" → c.context = cf) ∧
  (raw ≠ "" → strIncludes (hay c) (trimStr (toLowerStr raw)) = true)

/-! ## Paging (part_001 lines 181-221, 304-309) -/

/-- `PAGE_SIZE` is `'all'` or a number (`rowsPerPage` sets
`Math.max(1, Number(v) || 50)`). -/
inductive PageSize
  | all
  | num (n : Nat)
deriving DecidableEq

/-- The object returned by `computePage`.  `end` is a Lean keyword, so the
source's `end` field is called `stop`. -/
structure PageInfo where
  total : Nat
  size : Nat
  totalPages : Nat
  page : Nat
  start : Nat
  stop : Nat
  pageItems : List Record
deriving DecidableEq

/-- `computePage` from the source.  `total`, `size` and the derived indices
are natural numbers (array lengths); the requested `PAGE` is an integer, and
`Math.min(Math.max(1, PAGE), totalPages)` clamps it into range.
`Math.ceil(total/size)` on non-negative integers is `(total + size - 1) / size`. -/
def computePage (LAST_FILTERED : List Record) (PAGE : Int) (PAGE_SIZE : PageSize) : PageInfo :=
  let total := LAST_FILTERED.length
  let size := match PAGE_SIZE with
    | .all => total
    | .num n => n
  let totalPages := if size ≠ 0 then max 1 ((total + size - 1) / size) else 1
  let page := (min (max 1 PAGE) (totalPages : Int)).toNat
  let start := if size = 0 then 0 else (page - 1) * size
  let stop := if size = 0 then total else min (start + size) total
  { total := total, size := size, totalPages := totalPages, page := page,
    start := start, stop := stop,
    pageItems := (LAST_FILTERED.drop start).take (stop - start) }

/-- The Presenter's module-level mutable state: the loaded dataset, the last
filter result, the paging state, and the three filter inputs (`q`,
`typeFilter`, `ctxFilter` element values). -/
structure ViewerState where
  DATA : List Record
  LAST_FILTERED : List Record
  PAGE : Int
  PAGE_SIZE : PageSize
  qInput : String
  typeFilter : String
  ctxFilter : String
deriving DecidableEq

/-- `updatePage`: recompute the page info and store the clamped page number
(`PAGE = info.page`); rendering reads `info.pageItems`. -/
def updatePage (st : ViewerState) : ViewerState × PageInfo :=
  let info := computePage st.LAST_FILTERED st.PAGE st.PAGE_SIZE
  ({ st with PAGE := (info.page : Int) }, info)

/-- `applyFilters`: recompute `LAST_FILTERED` from `DATA` and the three filter
inputs, reset `PAGE` to 1, then run `updatePage`. -/
def applyFiltersState (st : ViewerState) : ViewerState :=
  let q := trimStr (toLowerStr st.qInput)
  let filtered := st.DATA.filter (keepRecord q st.typeFilter st.ctxFilter)
  (updatePage { st with LAST_FILTERED := filtered, PAGE := 1 }).1

/-! ## Import / paste / drag-and-drop handlers (part_001 lines 224-254, 364-379)

`JSON.parse` is a browser builtin; a handler receives its outcome as
`Except String JsonRoot`: `.error msg` models the thrown exception (the alert
shows `'Invalid JSON: ' + err.message`), `.ok` the parsed root.  The viewer
never inspects array elements on load (`Array.isArray` is the only check), so
an array root carries its elements as `Record`s, the duck-typed shape every
later consumer reads. -/

/-- The root of a successfully parsed JSON text: an array (of change records)
or anything else. -/
inductive JsonRoot
  | arr (items : List Record)
  | nonArray
deriving DecidableEq

/-- Result of one load attempt: the viewer state afterwards, and the `alert`
message when the attempt was rejected. -/
structure LoadOutcome where
  state : ViewerState
  alertMsg : Option String
deriving DecidableEq

/-- The `fileInput`/`fileInputMobile` change handler.  The outer `Option` is
`e.target.files?.[0]` (`none`: no file selected, the handler returns); the
inner value is the outcome of `JSON.parse(reader.result)`. -/
def fileInputChange (st : ViewerState) (file : Option (Except String JsonRoot)) : LoadOutcome :=
  match file with
  | none => { state := st, alertMsg := none }
  | some (.ok (.arr items)) =>
      { state := applyFiltersState { st with DATA := items }, alertMsg := none }
  | some (.ok .nonArray) =>
      { state := st, alertMsg := some "Invalid JSON: Root must be an array" }
  | some (.error m) => { state := st, alertMsg := some ("Invalid JSON: " ++ m) }

/-- The `pasteApply` click handler, given the outcome of parsing the
`pasteArea` text. -/
def pasteApplyClick (st : ViewerState) (parsed : Except String JsonRoot) : LoadOutcome :=
  match parsed with
  | .ok (.arr items) =>
      { state := applyFiltersState { st with DATA := items }, alertMsg := none }
  | .ok .nonArray => { state := st, alertMsg := some "Invalid JSON: Root must be an array" }
  | .error m => { state := st, alertMsg := some ("Invalid JSON: " ++ m) }

deriving instance DecidableEq for Except

/-- A dropped file: its MIME type and the outcome of parsing its text. -/
structure DropFile where
  ftype : String
  parsed : Except String JsonRoot
deriving DecidableEq

/-- `file.type.match(/json|text/)` is truthy exactly when the type contains
`json` or `text` as a substring. -/
def typeMatchesJsonOrText (ftype : String) : Bool :=
  strIncludes ftype "json" || strIncludes ftype "text"

/-- The `window` drop handler (`e.dataTransfer?.files?.[0]`). -/
def windowDrop (st : ViewerState) (file : Option DropFile) : LoadOutcome :=
  match file with
  | none => { state := st, alertMsg := none }
  | some f =>
      if typeMatchesJsonOrText f.ftype then
        match f.parsed with
        | .ok (.arr items) =>
            { state := applyFiltersState { st with DATA := items }, alertMsg := none }
        | .ok .nonArray =>
            { state := st, alertMsg := some "Invalid JSON: Root must be an array" }
        | .error m => { state := st, alertMsg := some ("Invalid JSON: " ++ m) }
      else { state := st, alertMsg := some "Please drop a JSON file." }

/-! ## Rendering (part_001 lines 60-145)

The HTML markup is abstracted to the data each card displays; the surrounding
tags and CSS classes carry no record content. -/

/-- What `renderChangeItem` displays for one record: a key-value card (property
name, line label, change-type badge, escaped old/new values), a file-removed
card (badge only, no line content), or a block card (line label, badge, the
rendered old/new line blocks after the `|| placeholder` fallback). -/
inductive RenderedCard
  | kvCard (property line badge oldText newText : String)
  | fileDeletedCard (badge : String)
  | blockCard (line badge oldBlock newBlock : String)
deriving DecidableEq

/-- The placeholder shown for an empty line block.  The source file stores the
em dash in mojibake form (its UTF-8 bytes read as Windows-1252), so the literal
is the three characters U+00E2, U+20AC, U+201D. -/
def emptyBlockPlaceholder : String :=
  String.mk [Char.ofNat 0xE2, Char.ofNat 0x20AC, Char.ofNat 0x201D]

/-- `(ch.line_new ?? ch.line_old ?? '-')` as the displayed line label. -/
def lineLabel (ch : Record) : String :=
  match ch.line_new with
  | some n => toString n
  | none =>
      match ch.line_old with
      | some n => toString n
      | none => "-"

/-- `renderChangeItem`: kv/plist-kv records render the property card from
`property`/`old`/`new`; otherwise a `file-deleted` record renders the
"File removed" card; otherwise the block card renders `old_lines`/`new_lines`
prefixed with `- `/`+ ` and joined with newlines. -/
def renderChangeItem (ch : Record) : RenderedCard :=
  if ch.context = "kv" ∨ ch.context = "plist-kv" then
    .kvCard (escapeHtml (some (ch.property.getD "(unknown)"))) (lineLabel ch)
      ch.change_type (escapeHtml ch.old) (escapeHtml ch.new)
  else if ch.change_type = "file-deleted" then
    .fileDeletedCard ch.change_type
  else
    let oldBlock := String.intercalate "\n"
      ((ch.old_lines.getD []).map (fun l => "- " ++ escapeHtml (some l)))
    let newBlock := String.intercalate "\n"
      ((ch.new_lines.getD []).map (fun l => "+ " ++ escapeHtml (some l)))
    .blockCard (lineLabel ch) ch.change_type
      (if oldBlock = "" then emptyBlockPlaceholder else oldBlock)
      (if newBlock = "" then emptyBlockPlaceholder else newBlock)

/-- The file sections `renderFiles` produces, abstracted to (file name, records)
pairs: `groupBy(changes, 'file')`, then `Object.keys(groups).sort()` (the
default JavaScript sort is lexicographic string comparison), then one section
per sorted name holding `groups[fname]`. -/
def renderFilesSections (changes : List Record) : List (String × List Record) :=
  let groups := groupBy (fun r => r.file) changes
  let fileNames := List.insertionSort (fun a b => strLe a b = true) (groups.map Prod.fst)
  fileNames.map (fun fname => (fname, (lookupGroup fname groups).getD []))

/-! ## Built-in sample (part_001 lines 263-270) -/

/-- The `loadSample` dataset, verbatim. -/
def sampleData : List Record :=
  [ { file := "Scripts/Powershell/Script Data/intunecd_appreg.ps1",
      property := none, line_old := some 14, line_new := some 14,
      context := "block",
      old_lines := some ["$appName = \"IntuneCD-Monitor\""],
      new_lines := some ["$appName = \"IntuneCD\""],
      change_type := "replace", old := none, new := none },
    { file := "Settings Catalog/Baseline - W365_mdm.json",
      property := some "value",
      old := some "\"device_vendor_msft_policy_config_devicelock_preventenablinglockscreencamera_1\"",
      new := some "\"device_vendor_msft_policy_config_devicelock_preventenablinglockscreencamera_0\"",
      line_old := some 28, line_new := some 28, context := "kv",
      change_type := "replace", old_lines := none, new_lines := none },
    { file := "Assignment Report/report.json",
      property := none, line_old := some 1, line_new := none,
      context := "block", old_lines := some [], new_lines := some [],
      change_type := "file-deleted", old := none, new := none } ]

/-- The exclusivity invariant of spec §3: a kv/plist-kv record carries its
change in the single-line `old`/`new` fields and leaves `old_lines`/`new_lines`
unpopulated, while a block record carries it in `old_lines`/`new_lines` and
leaves `old`/`new` unpopulated. -/
abbrev recordPairExclusive (r : Record) : Prop :=
  (r.context = "kv" ∨ r.context = "plist-kv" →
    r.old_lines = none ∧ r.new_lines = none ∧
      (r.old.isSome = true ∨ r.new.isSome = true)) ∧
  (r.context = "block" →
    r.old = none ∧ r.new = none ∧ r.old_lines.isSome = true ∧ r.new_lines.isSome = true)

/-! ## Change Extractor — modelled from the spec

`gitdiffer.py` (the Extractor) is not among the available sources; only the
Presenter is.  The definitions below are modelled from the spec, §4.1:
format detection selects a key-value strategy for structured files
(plist-style → `plist-kv`, JSON-like → `kv`), unparsable structured input
degrades to block diffing, absent new content yields one `file-deleted`
record, and plain text goes through a line diff whose maximal contiguous
changed runs collapse into single `insert`/`delete`/`replace` block records
with 1-based first-affected line numbers (spec §4.1 items 1-3, §8
Scenarios 1-4). -/

/-- Modelled from the spec: split file content into lines (one trailing
newline does not create an extra empty line, matching §8 Scenario 1 where
`"a=1\nb=2\n"` has lines 1 and 2). -/
def splitLines (s : String) : List String :=
  let parts := (splitListOn '\n' s.data).map String.mk
  if parts.getLast? = some "" then parts.dropLast else parts

/-- Length of the longest common prefix of two line lists. -/
def commonPrefixLen : List String → List String → Nat
  | x :: xs, y :: ys => if x = y then commonPrefixLen xs ys + 1 else 0
  | _, _ => 0

/-- Length of the longest common suffix of two line lists. -/
def commonSuffixLen (xs ys : List String) : Nat :=
  commonPrefixLen xs.reverse ys.reverse

/-- Modelled from the spec: the line-diff primitive.  The surviving changed
region (after stripping the common prefix and suffix) collapses into one
block record: purely-added lines → `insert` (`old_lines=[]`), purely-removed
→ `delete` (`new_lines=[]`), both → `replace`; first affected 1-based line
number on each side present, absent sides are null (§4.1 item 3). -/
def lineDiff (path : String) (olds news : List String) : List Record :=
  let p := commonPrefixLen olds news
  let oldsRest := olds.drop p
  let newsRest := news.drop p
  let s := commonSuffixLen oldsRest newsRest
  let removed := oldsRest.take (oldsRest.length - s)
  let added := newsRest.take (newsRest.length - s)
  if removed = [] ∧ added = [] then []
  else if removed = [] then
    [{ file := path, change_type := "insert", context := "block",
       line_old := none, line_new := some ((p : Int) + 1), property := none,
       old := none, new := none, old_lines := some [], new_lines := some added }]
  else if added = [] then
    [{ file := path, change_type := "delete", context := "block",
       line_old := some ((p : Int) + 1), line_new := none, property := none,
       old := none, new := none, old_lines := some removed, new_lines := some [] }]
  else
    [{ file := path, change_type := "replace", context := "block",
       line_old := some ((p : Int) + 1), line_new := some ((p : Int) + 1),
       property := none, old := none, new := none,
       old_lines := some removed, new_lines := some added }]

/-- Modelled from the spec: strip the quotes of a quoted key (`"timeout": 30`
has property `timeout`, §8 Scenario 2). -/
def stripQuotes (s : String) : String :=
  match s.data with
  | '"' :: rest =>
      if rest ≠ [] ∧ rest.getLast? = some '"' then String.mk rest.dropLast else s
  | _ => s

/-- Modelled from the spec: parse one `key: value` line of a structured
key-value file into (property, literal value text); fails when there is no
separator (malformed structured syntax). -/
def parseKVLine (l : String) : Option (String × String) :=
  match splitListOn ':' l.data with
  | [] => none
  | [_] => none
  | k :: rest =>
      some (stripQuotes (trimStr (String.mk k)),
        trimStr (String.intercalate ":" (rest.map String.mk)))

/-- Modelled from the spec: parse a whole file into an ordered key→value
sequence; blank lines are skipped and any malformed line fails the parse
(which then degrades to block diffing). -/
def parseKV (s : String) : Option (List (String × String)) :=
  (splitLines s).foldr
    (fun l acc =>
      match acc with
      | none => none
      | some ps => if trimStr l = "" then some ps else
          match parseKVLine l with
          | none => none
          | some p => some (p :: ps))
    (some [])

/-- First value stored under a key. -/
def lookupKV (k : String) (ps : List (String × String)) : Option String :=
  (ps.find? (fun p => p.1 = k)).map Prod.snd

/-- Modelled from the spec: diff two ordered key→value sequences (§4.1 item 2).
Key only in new → `insert`; in both with different values → `replace`; only in
old → `delete`; identical values → no record.  Values keep their literal text. -/
def kvChanges (path ctx : String) (olds news : List (String × String)) : List Record :=
  ((news.map Prod.fst).eraseDups.filterMap (fun k =>
    match lookupKV k olds, lookupKV k news with
    | none, some v =>
        some { file := path, change_type := "insert", context := ctx,
               line_old := none, line_new := none, property := some k,
               old := none, new := some v, old_lines := none, new_lines := none }
    | some ov, some nv =>
        if ov = nv then none
        else some { file := path, change_type := "replace", context := ctx,
                    line_old := none, line_new := none, property := some k,
                    old := some ov, new := some nv, old_lines := none, new_lines := none }
    | _, _ => none)) ++
  ((olds.map Prod.fst).eraseDups.filterMap (fun k =>
    match lookupKV k news with
    | some _ => none
    | none =>
        (lookupKV k olds).map (fun ov =>
          { file := path, change_type := "delete", context := ctx,
            line_old := none, line_new := none, property := some k,
            old := some ov, new := none, old_lines := none, new_lines := none })))

/-- Modelled from the spec: detect the structured key-value formats
(plist-style → `plist-kv`, JSON-like → `kv`); anything else is plain text. -/
def detectFormat (path : String) : Option String :=
  if endsWithStr path ".plist" then some "plist-kv"
  else if endsWithStr path ".json" then some "kv"
  else none

/-- Modelled from the spec: the Extractor for one file pair (§4.1).  Absent
new content → one `file-deleted` block record with empty line-content fields
(its `line_old` is the determinable position 1, as in the sample data);
recognized structured formats parse both sides and diff key→value pairs,
degrading to the line diff when either side fails to parse; plain text goes
through the line diff.  Absent old content means a newly created file and
diffs from empty content. -/
def extract (path : String) (oldC newC : Option String) : List Record :=
  match newC with
  | none =>
      [{ file := path, change_type := "file-deleted", context := "block",
         line_old := some 1, line_new := none, property := none,
         old := none, new := none, old_lines := some [], new_lines := some [] }]
  | some newS =>
      let oldS := oldC.getD ""
      match detectFormat path with
      | some ctx =>
          match parseKV oldS, parseKV newS with
          | some ops, some nps => kvChanges path ctx ops nps
          | _, _ => lineDiff path (splitLines oldS) (splitLines newS)
      | none => lineDiff path (splitLines oldS) (splitLines newS)

/-! ## Theorems -/

theorem not_mem_replaceAllChar_self {c : Char} {rep : List Char} (hrep : c ∉ rep) :
    ∀ l : List Char, c ∉ replaceAllChar c rep l := by
  intro l
  induction l with
  | nil => simp [replaceAllChar]
  | cons x xs ih =>
    by_cases hx : x = c
    · rw [replaceAllChar, if_pos hx]
      intro h
      rcases List.mem_append.mp h with h1 | h2
      · exact hrep h1
      · exact ih h2
    · rw [replaceAllChar, if_neg hx]
      intro h
      rcases List.mem_cons.mp h with h1 | h2
      · exact hx h1.symm
      · exact ih h2

theorem not_mem_replaceAllChar_of_not_mem {c d : Char} {rep : List Char}
    (hrep : c ∉ rep) {l : List Char} (hl : c ∉ l) : c ∉ replaceAllChar d rep l := by
  induction l with
  | nil => simp [replaceAllChar]
  | cons x xs ih =>
    have hcx : c ≠ x := fun h => hl (h ▸ List.mem_cons_self x xs)
    have hxs : c ∉ xs := fun h => hl (List.mem_cons_of_mem _ h)
    by_cases hx : x = d
    · rw [replaceAllChar, if_pos hx]
      intro h
      rcases List.mem_append.mp h with h1 | h2
      · exact hrep h1
      · exact ih hxs h2
    · rw [replaceAllChar, if_neg hx]
      intro h
      rcases List.mem_cons.mp h with h1 | h2
      · exact hcx h1
      · exact ih hxs h2

/-- Claim C8: for every input value, including null and undefined, `escapeHtml`
returns a string containing no literal `<` and no literal `>` character, and
null/undefined are mapped to the empty string. -/
theorem escapeHtml_no_angle_brackets (s : Option String) :
    '<' ∉ (escapeHtml s).data ∧ '>' ∉ (escapeHtml s).data ∧ escapeHtml none = "" := by
  refine ⟨?_, ?_, rfl⟩
  · have h1 : '<' ∉ replaceAllChar '<' "&lt;".data
        (replaceAllChar '&' "&amp;".data (s.getD "").data) :=
      not_mem_replaceAllChar_self (by decide) _
    exact not_mem_replaceAllChar_of_not_mem (by decide) h1
  · exact not_mem_replaceAllChar_self (by decide) _


theorem lookupGroup_insertGrouped {α : Type} (k k' : String) (x : α)
    (m : List (String × List α)) :
    lookupGroup k (insertGrouped k' x m) =
      if k' = k then some ((lookupGroup k m).getD [] ++ [x]) else lookupGroup k m := by
  induction m with
  | nil =>
    by_cases h : k' = k
    · simp [insertGrouped, lookupGroup, h]
    · simp [insertGrouped, lookupGroup, h]
  | cons p rest ih =>
    obtain ⟨k₀, xs⟩ := p
    by_cases h0 : k₀ = k'
    · subst h0
      by_cases h : k₀ = k
      · simp [insertGrouped, lookupGroup, h]
      · simp [insertGrouped, lookupGroup, h]
    · by_cases h : k₀ = k
      · subst h
        have : ¬ k' = k₀ := fun he => h0 he.symm
        simp [insertGrouped, lookupGroup, h0, this]
      · simp [insertGrouped, lookupGroup, h0, h, ih]

theorem keys_insertGrouped {α : Type} (k : String) (x : α) (m : List (String × List α)) :
    (insertGrouped k x m).map Prod.fst =
      if k ∈ m.map Prod.fst then m.map Prod.fst else m.map Prod.fst ++ [k] := by
  induction m with
  | nil => simp [insertGrouped]
  | cons p rest ih =>
    obtain ⟨k₀, xs⟩ := p
    by_cases h0 : k₀ = k
    · subst h0
      simp [insertGrouped]
    · have hne : ¬ k = k₀ := fun he => h0 he.symm
      by_cases hm : k ∈ rest.map Prod.fst
      · simp [insertGrouped, h0, ih, hm, hne]
      · simp [insertGrouped, h0, ih, hm, hne]

theorem groupBy_concat {α : Type} (key : α → String) (l : List α) (x : α) :
    groupBy key (l ++ [x]) = insertGrouped (key x) x (groupBy key l) := by
  simp [groupBy, List.foldl_append]

theorem lookupGroup_groupBy {α : Type} (key : α → String) (l : List α) (k : String) :
    (lookupGroup k (groupBy key l)).getD [] = l.filter (fun x => key x = k) := by
  induction l using List.reverseRecOn with
  | nil => simp [groupBy, lookupGroup]
  | append_singleton l x ih =>
    rw [groupBy_concat, lookupGroup_insertGrouped]
    by_cases h : key x = k
    · simp [h, List.filter_append, ih]
    · simp [h, List.filter_append, ih]

theorem mem_keys_groupBy {α : Type} (key : α → String) (l : List α) (k : String) :
    k ∈ (groupBy key l).map Prod.fst ↔ k ∈ l.map key := by
  induction l using List.reverseRecOn generalizing k with
  | nil => simp [groupBy]
  | append_singleton l x ih =>
    rw [groupBy_concat, keys_insertGrouped]
    by_cases hm : key x ∈ (groupBy key l).map Prod.fst
    · have hx : key x ∈ l.map key := (ih (key x)).mp hm
      by_cases hk : k = key x
      · subst hk
        simp [hm, ih, hx]
      · simp [hm, ih, hk]
    · by_cases hk : k = key x
      · subst hk
        simp [hm]
      · simp [hm, ih, hk]

theorem nodup_keys_groupBy {α : Type} (key : α → String) (l : List α) :
    ((groupBy key l).map Prod.fst).Nodup := by
  induction l using List.reverseRecOn with
  | nil => simp [groupBy]
  | append_singleton l x ih =>
    rw [groupBy_concat, keys_insertGrouped]
    by_cases hm : key x ∈ (groupBy key l).map Prod.fst
    · simpa [hm] using ih
    · rw [if_neg hm]
      refine List.Nodup.append ih (List.nodup_singleton _) ?_
      intro a ha hb
      rw [List.mem_singleton] at hb
      exact hm (hb ▸ ha)

/-- Claim C10: `groupBy` partitions the array — the group keys are pairwise
distinct, and the group stored under each key `k` is exactly the sublist of
input elements whose (string-coerced) key value is `k`, in input order. -/
theorem groupBy_partitions {α : Type} (key : α → String) (arr : List α) :
    ((groupBy key arr).map Prod.fst).Nodup ∧
      (∀ k : String,
        (lookupGroup k (groupBy key arr)).getD [] = arr.filter (fun x => key x = k)) ∧
      (∀ k : String, k ∈ (groupBy key arr).map Prod.fst ↔ k ∈ arr.map key) :=
  ⟨nodup_keys_groupBy key arr, lookupGroup_groupBy key arr, mem_keys_groupBy key arr⟩



/-! ## Claims C1-C3 -/

theorem strIncludes_empty_needle (s : String) : strIncludes s "" = true := by
  unfold strIncludes
  cases s.data with
  | nil => rfl
  | cons c rest => simp [containsSub, isPrefixList]

/-- Claim C1 is false as stated: with no change-type or context filter and the
search string `"ab"`, the record with `file="a"`, `property="b"` and all other
content fields null satisfies the claim's predicate (the lower-cased plain
concatenation of the fields is `"ab"`, which contains `"ab"`), yet the code's
filter drops it, because `applyFilters` joins the non-empty fields with a
space (`"a b"` does not contain `"ab"`). -/
theorem applyFilters_literal_counterexample :
    claimKeepLiteral "ab" "" ""
      { file := "a", change_type := "replace", context := "kv", line_old := none,
        line_new := none, property := some "b", old := none, new := none,
        old_lines := none, new_lines := none } ∧
    keepRecord (trimStr (toLowerStr "ab")) "" ""
      { file := "a", change_type := "replace", context := "kv", line_old := none,
        line_new := none, property := some "b", old := none, new := none,
        old_lines := none, new_lines := none } = false ∧
    (applyFiltersState
      { DATA := [{ file := "a", change_type := "replace", context := "kv",
                   line_old := none, line_new := none, property := some "b",
                   old := none, new := none, old_lines := none, new_lines := none }],
        LAST_FILTERED := [], PAGE := 1, PAGE_SIZE := .num 50,
        qInput := "ab", typeFilter := "", ctxFilter := "" }).LAST_FILTERED = [] := by
  refine ⟨?_, ?_, ?_⟩ <;> decide

/-- Claim C1 as amended: the Presenter's filter keeps exactly those records
matching the selected change-type and context whose haystack — the lower-cased,
space-separated join of the non-empty fields among `file`, `property`, `old`,
`new`, the newline-joined `old_lines` and the newline-joined `new_lines`
(null fields counting as empty) — contains the lower-cased, trimmed search
string when the search string is non-empty.  No other field (in particular no
line-number field) participates in filtering. -/
theorem applyFilters_keeps_exactly :
    (∀ st : ViewerState,
      (applyFiltersState st).LAST_FILTERED =
        st.DATA.filter (keepRecord (trimStr (toLowerStr st.qInput)) st.typeFilter st.ctxFilter)) ∧
    (∀ raw tf cf : String, ∀ r : Record,
      keepRecord (trimStr (toLowerStr raw)) tf cf r = true ↔ claimKeepAmended raw tf cf r) ∧
    (∀ q tf cf : String, ∀ r : Record, ∀ lo ln : Option Int,
      keepRecord q tf cf { r with line_old := lo, line_new := ln } =
        keepRecord q tf cf r) := by
  refine ⟨fun st => rfl, fun raw tf cf r => ?_, fun q tf cf r lo ln => rfl⟩
  unfold keepRecord claimKeepAmended
  constructor
  · intro h
    split_ifs at h with h1 h2 h3
    · refine ⟨fun htf => ?_, fun hcf => ?_, fun _ => ?_⟩
      · by_contra hne
        exact h1 ⟨htf, hne⟩
      · by_contra hne
        exact h2 ⟨hcf, hne⟩
      · rw [h3]
        exact strIncludes_empty_needle _
    · refine ⟨fun htf => ?_, fun hcf => ?_, fun _ => h⟩
      · by_contra hne
        exact h1 ⟨htf, hne⟩
      · by_contra hne
        exact h2 ⟨hcf, hne⟩
  · rintro ⟨hA, hB, hC⟩
    split_ifs with h1 h2 h3
    · exact absurd (hA h1.1) h1.2
    · exact absurd (hB h2.1) h2.2
    · rfl
    · refine hC fun hraw => h3 ?_
      rw [hraw]
      decide

/-- Claim C2: on every Presenter input path (file chooser, paste dialog,
drag-and-drop), a text that fails to parse as JSON or parses to a non-array
root is rejected with a user-visible alert and leaves the whole viewer state
(in particular `DATA`, `LAST_FILTERED` and `PAGE`, hence the rendered view)
exactly unchanged. -/
theorem invalid_load_leaves_data_unchanged (st : ViewerState) (m ft : String) :
    ((fileInputChange st (some (Except.error m))).state = st ∧
      (fileInputChange st (some (Except.error m))).alertMsg.isSome = true) ∧
    ((fileInputChange st (some (Except.ok JsonRoot.nonArray))).state = st ∧
      (fileInputChange st (some (Except.ok JsonRoot.nonArray))).alertMsg.isSome = true) ∧
    ((pasteApplyClick st (Except.error m)).state = st ∧
      (pasteApplyClick st (Except.error m)).alertMsg.isSome = true) ∧
    ((pasteApplyClick st (Except.ok JsonRoot.nonArray)).state = st ∧
      (pasteApplyClick st (Except.ok JsonRoot.nonArray)).alertMsg.isSome = true) ∧
    ((windowDrop st (some ⟨ft, Except.error m⟩)).state = st ∧
      (windowDrop st (some ⟨ft, Except.error m⟩)).alertMsg.isSome = true) ∧
    ((windowDrop st (some ⟨ft, Except.ok JsonRoot.nonArray⟩)).state = st ∧
      (windowDrop st (some ⟨ft, Except.ok JsonRoot.nonArray⟩)).alertMsg.isSome = true) := by
  refine ⟨⟨rfl, rfl⟩, ⟨rfl, rfl⟩, ⟨rfl, rfl⟩, ⟨rfl, rfl⟩, ?_, ?_⟩ <;>
    by_cases h : typeMatchesJsonOrText ft <;> simp [windowDrop, h]

/-- Claim C3: on each input path whose text gets read, the dataset is replaced
exactly when the text parses to an array root; on replacement the resulting
state is `applyFilters` run on the state holding the new dataset (filters
re-applied), and the new `DATA` is the parsed array. -/
theorem load_replaces_data_iff_array (st : ViewerState) (m ft : String)
    (items : List Record) (hft : typeMatchesJsonOrText ft = true) :
    (fileInputChange st (some (Except.ok (JsonRoot.arr items)))).state =
        applyFiltersState { st with DATA := items } ∧
    (fileInputChange st none).state.DATA = st.DATA ∧
    (fileInputChange st (some (Except.error m))).state.DATA = st.DATA ∧
    (fileInputChange st (some (Except.ok JsonRoot.nonArray))).state.DATA = st.DATA ∧
    (pasteApplyClick st (Except.ok (JsonRoot.arr items))).state =
        applyFiltersState { st with DATA := items } ∧
    (pasteApplyClick st (Except.error m)).state.DATA = st.DATA ∧
    (pasteApplyClick st (Except.ok JsonRoot.nonArray)).state.DATA = st.DATA ∧
    (windowDrop st (some ⟨ft, Except.ok (JsonRoot.arr items)⟩)).state =
        applyFiltersState { st with DATA := items } ∧
    (windowDrop st (some ⟨ft, Except.error m⟩)).state.DATA = st.DATA ∧
    (windowDrop st (some ⟨ft, Except.ok JsonRoot.nonArray⟩)).state.DATA = st.DATA ∧
    (applyFiltersState { st with DATA := items }).DATA = items := by
  refine ⟨rfl, rfl, rfl, rfl, rfl, rfl, rfl, ?_, ?_, ?_, rfl⟩ <;>
    simp [windowDrop, hft]



/-! ## Claim C4 -/

theorem strLeChars_total : ∀ (x y : List Char), strLeChars x y = true ∨ strLeChars y x = true := by
  intro x
  induction x with
  | nil => intro y; left; rfl
  | cons a as ih =>
    intro y
    cases y with
    | nil => right; rfl
    | cons b bs =>
      by_cases hab : a < b
      · left; simp [strLeChars, hab]
      · by_cases hba : b < a
        · right; simp [strLeChars, hba]
        · rcases ih bs with h | h
          · left; simp [strLeChars, hab, hba, h]
          · right; simp [strLeChars, hab, hba, h]

theorem strLeChars_trans : ∀ {x y z : List Char},
    strLeChars x y = true → strLeChars y z = true → strLeChars x z = true := by
  intro x
  induction x with
  | nil => intro y z h1 h2; rfl
  | cons a as ih =>
    intro y z h1 h2
    cases y with
    | nil => exact absurd h1 (by simp [strLeChars])
    | cons b bs =>
      cases z with
      | nil => exact absurd h2 (by simp [strLeChars])
      | cons c cs =>
        simp only [strLeChars] at h1 h2 ⊢
        by_cases hab : a < b
        · by_cases hbc : b < c
          · rw [if_pos (lt_trans hab hbc)]
          · by_cases hcb : c < b
            · rw [if_neg hbc, if_pos hcb] at h2
              exact absurd h2 (by simp)
            · have hbceq : b = c := by
                rcases lt_trichotomy b c with h | h | h
                exacts [absurd h hbc, h, absurd h hcb]
              subst hbceq
              rw [if_pos hab]
        · by_cases hba : b < a
          · rw [if_neg hab, if_pos hba] at h1
            exact absurd h1 (by simp)
          · have habeq : a = b := by
              rcases lt_trichotomy a b with h | h | h
              exacts [absurd h hab, h, absurd h hba]
            subst habeq
            rw [if_neg hab, if_neg hba] at h1
            by_cases hac : a < c
            · rw [if_pos hac]
            · by_cases hca : c < a
              · rw [if_neg hac, if_pos hca] at h2
                exact absurd h2 (by simp)
              · rw [if_neg hac, if_neg hca] at h2
                rw [if_neg hac, if_neg hca]
                exact ih h1 h2

instance : IsTotal String (fun a b => strLe a b = true) :=
  ⟨fun a b => strLeChars_total a.data b.data⟩

instance : IsTrans String (fun a b => strLe a b = true) :=
  ⟨fun _ _ _ h1 h2 => strLeChars_trans h1 h2⟩

/-- Claim C4: the rendered page groups records by their `file` field into one
section per file name; the section names are pairwise distinct, appear in
ascending lexicographic order regardless of the input order, are exactly the
file names occurring in the input, and each section holds exactly the input's
records with that file name, in input order. -/
theorem renderFiles_grouped_sorted (changes : List Record) :
    List.Sorted (fun a b => strLe a b = true) ((renderFilesSections changes).map Prod.fst) ∧
    ((renderFilesSections changes).map Prod.fst).Nodup ∧
    (∀ f : String,
      f ∈ (renderFilesSections changes).map Prod.fst ↔ f ∈ changes.map (fun r => r.file)) ∧
    (∀ (f : String) (items : List Record), (f, items) ∈ renderFilesSections changes →
      items = changes.filter (fun r => r.file = f)) := by
  have hmap : (renderFilesSections changes).map Prod.fst =
      List.insertionSort (fun a b => strLe a b = true)
        ((groupBy (fun r => r.file) changes).map Prod.fst) := by
    simp only [renderFilesSections, List.map_map]
    show List.map id _ = _
    exact List.map_id _
  refine ⟨?_, ?_, fun f => ?_, fun f items hmem => ?_⟩
  · rw [hmap]
    exact List.sorted_insertionSort _ _
  · rw [hmap]
    exact (List.perm_insertionSort _ _).nodup_iff.mpr (nodup_keys_groupBy _ _)
  · rw [hmap, (List.perm_insertionSort _ _).mem_iff]
    exact mem_keys_groupBy _ _ _
  · simp only [renderFilesSections, List.mem_map] at hmem
    obtain ⟨n, hn, heq⟩ := hmem
    injection heq with h1 h2
    subst h1
    subst h2
    exact lookupGroup_groupBy (fun r => r.file) changes n

/-- Witness for the grouping claim at the built-in sample dataset: the section
named by the sample's third file holds exactly that file's records. -/
theorem renderFiles_grouped_sorted_witness :
    ("Assignment Report/report.json", sampleData.drop 2) ∈ renderFilesSections sampleData ∧
    sampleData.drop 2 =
      sampleData.filter (fun r => r.file = "Assignment Report/report.json") :=
  ⟨by decide, (renderFiles_grouped_sorted sampleData).2.2.2 _ _ (by decide)⟩



/-! ## Claim C5 -/

theorem commonPrefixLen_self (xs : List String) : commonPrefixLen xs xs = xs.length := by
  induction xs with
  | nil => rfl
  | cons x l ih => simp [commonPrefixLen, ih]

theorem lineDiff_self (path : String) (xs : List String) : lineDiff path xs xs = [] := by
  simp [lineDiff, commonPrefixLen_self, List.drop_length, commonSuffixLen, commonPrefixLen]

theorem kvChanges_self (path ctx : String) (ps : List (String × String)) :
    kvChanges path ctx ps ps = [] := by
  unfold kvChanges
  rw [List.append_eq_nil]
  constructor
  · rw [List.filterMap_eq_nil_iff]
    intro k hk
    cases h : lookupKV k ps with
    | none => simp [h]
    | some v => simp [h]
  · rw [List.filterMap_eq_nil_iff]
    intro k hk
    cases h : lookupKV k ps with
    | none => simp [h]
    | some v => simp [h]

/-- Claim C5: for every file pair whose old content equals its new content,
the Extractor emits zero change records — through the key-value strategy
(identical parses diff to nothing), through its degraded block mode
(unparsable structured input), and through the plain line diff alike. -/
theorem extract_equal_contents_no_records (path content : String) :
    extract path (some content) (some content) = [] := by
  unfold extract
  cases hdf : detectFormat path with
  | none => simp [hdf, lineDiff_self]
  | some ctx =>
      cases hp : parseKV content with
      | none => simp [hdf, hp, lineDiff_self]
      | some ps => simp [hdf, hp, kvChanges_self]

/-! ## Claim C9 -/

theorem pageBounds (total size tp pg st sp : Nat) (PAGE : Int)
    (htp : tp = if size ≠ 0 then max 1 ((total + size - 1) / size) else 1)
    (hpg : pg = (min (max 1 PAGE) (tp : Int)).toNat)
    (hst : st = if size = 0 then 0 else (pg - 1) * size)
    (hsp : sp = if size = 0 then total else min (st + size) total) :
    1 ≤ tp ∧ 1 ≤ pg ∧ pg ≤ tp ∧ st ≤ sp ∧ sp ≤ total := by
  by_cases hs : size = 0
  · rw [if_neg (by omega)] at htp
    rw [if_pos hs] at hst hsp
    refine ⟨by omega, by omega, by omega, by omega, by omega⟩
  · rw [if_pos hs] at htp
    rw [if_neg hs] at hst hsp
    have hs1 : 1 ≤ size := Nat.one_le_iff_ne_zero.mpr hs
    have htp1 : 1 ≤ tp := by omega
    have hpg1 : 1 ≤ pg := by omega
    have hpgtp : pg ≤ tp := by omega
    by_cases ht0 : total = 0
    · have hdiv : (total + size - 1) / size = 0 := Nat.div_eq_of_lt (by omega)
      have hpg1' : pg = 1 := by omega
      have hst0 : st = 0 := by rw [hst, hpg1']; simp
      exact ⟨htp1, hpg1, hpgtp, by omega, by omega⟩
    · have hq1 : 1 ≤ (total + size - 1) / size :=
        (Nat.le_div_iff_mul_le hs1).mpr (by omega)
      have htpq : tp = (total + size - 1) / size := by omega
      have hqmul := Nat.div_mul_le_self (total + size - 1) size
      have hmul : (pg - 1) * size ≤ (tp - 1) * size :=
        Nat.mul_le_mul_right size (by omega)
      have hsub : (tp - 1) * size = tp * size - size := by rw [Nat.sub_mul, one_mul]
      have hqs : tp * size ≤ total + size - 1 := by
        rw [htpq]
        exact hqmul
      have hstt : st ≤ total := by rw [hst]; omega
      exact ⟨htp1, hpg1, hpgtp, by omega, by omega⟩

/-- Claim C9: for every filtered dataset, requested page number and page size,
`computePage` returns `totalPages ≥ 1`, a clamped page with
`1 ≤ page ≤ totalPages`, bounds `start ≤ stop ≤ total` with
`total` the filtered length, and `pageItems` equal to the contiguous slice
of the filtered list from `start` to `stop` (so its length is
`stop - start`); `updatePage` then stores the clamped page, so the stored
page number stays in the valid range. -/
theorem computePage_updatePage_invariants (filtered : List Record) (PAGE : Int)
    (PAGE_SIZE : PageSize) (st : ViewerState) :
    1 ≤ (computePage filtered PAGE PAGE_SIZE).totalPages ∧
    1 ≤ (computePage filtered PAGE PAGE_SIZE).page ∧
    (computePage filtered PAGE PAGE_SIZE).page ≤
      (computePage filtered PAGE PAGE_SIZE).totalPages ∧
    (computePage filtered PAGE PAGE_SIZE).start ≤ (computePage filtered PAGE PAGE_SIZE).stop ∧
    (computePage filtered PAGE PAGE_SIZE).stop ≤ (computePage filtered PAGE PAGE_SIZE).total ∧
    (computePage filtered PAGE PAGE_SIZE).total = filtered.length ∧
    (computePage filtered PAGE PAGE_SIZE).pageItems =
      (filtered.drop (computePage filtered PAGE PAGE_SIZE).start).take
        ((computePage filtered PAGE PAGE_SIZE).stop -
          (computePage filtered PAGE PAGE_SIZE).start) ∧
    (computePage filtered PAGE PAGE_SIZE).pageItems.length =
      (computePage filtered PAGE PAGE_SIZE).stop - (computePage filtered PAGE PAGE_SIZE).start ∧
    (updatePage st).1.PAGE = ((computePage st.LAST_FILTERED st.PAGE st.PAGE_SIZE).page : Int) ∧
    1 ≤ (updatePage st).1.PAGE ∧
    (updatePage st).1.PAGE ≤
      ((computePage st.LAST_FILTERED st.PAGE st.PAGE_SIZE).totalPages : Int) := by
  obtain ⟨h1, h2, h3, h4, h5⟩ :=
    pageBounds filtered.length
      (match PAGE_SIZE with | .all => filtered.length | .num n => n)
      (computePage filtered PAGE PAGE_SIZE).totalPages
      (computePage filtered PAGE PAGE_SIZE).page
      (computePage filtered PAGE PAGE_SIZE).start
      (computePage filtered PAGE PAGE_SIZE).stop
      PAGE rfl rfl rfl rfl
  obtain ⟨g1, g2, g3, g4, g5⟩ :=
    pageBounds st.LAST_FILTERED.length
      (match st.PAGE_SIZE with | .all => st.LAST_FILTERED.length | .num n => n)
      (computePage st.LAST_FILTERED st.PAGE st.PAGE_SIZE).totalPages
      (computePage st.LAST_FILTERED st.PAGE st.PAGE_SIZE).page
      (computePage st.LAST_FILTERED st.PAGE st.PAGE_SIZE).start
      (computePage st.LAST_FILTERED st.PAGE st.PAGE_SIZE).stop
      st.PAGE rfl rfl rfl rfl
  refine ⟨h1, h2, h3, h4, h5, rfl, rfl, ?_, rfl, ?_, ?_⟩
  · show ((filtered.drop (computePage filtered PAGE PAGE_SIZE).start).take
      ((computePage filtered PAGE PAGE_SIZE).stop -
        (computePage filtered PAGE PAGE_SIZE).start)).length = _
    rw [List.length_take, List.length_drop]
    omega
  · show (1 : Int) ≤ ((computePage st.LAST_FILTERED st.PAGE st.PAGE_SIZE).page : Int)
    omega
  · show ((computePage st.LAST_FILTERED st.PAGE st.PAGE_SIZE).page : Int) ≤ _
    omega



/-! ## Claims C6 and C7 -/

theorem mem_lineDiff {path : String} {olds news : List String} {r : Record}
    (h : r ∈ lineDiff path olds news) :
    r.context = "block" ∧ r.old = none ∧ r.new = none ∧
    r.old_lines.isSome = true ∧ r.new_lines.isSome = true ∧
    r.change_type ≠ "file-deleted" := by
  simp only [lineDiff] at h
  split_ifs at h with h1 h2 h3
  · simp at h
  · rw [List.mem_singleton] at h
    subst h
    exact ⟨rfl, rfl, rfl, rfl, rfl, show ("insert" : String) ≠ "file-deleted" by decide⟩
  · rw [List.mem_singleton] at h
    subst h
    exact ⟨rfl, rfl, rfl, rfl, rfl, show ("delete" : String) ≠ "file-deleted" by decide⟩
  · rw [List.mem_singleton] at h
    subst h
    exact ⟨rfl, rfl, rfl, rfl, rfl, show ("replace" : String) ≠ "file-deleted" by decide⟩

theorem mem_kvChanges {path ctx : String} {olds news : List (String × String)} {r : Record}
    (h : r ∈ kvChanges path ctx olds news) :
    r.context = ctx ∧ r.old_lines = none ∧ r.new_lines = none ∧
    (r.old.isSome = true ∨ r.new.isSome = true) ∧ r.change_type ≠ "file-deleted" := by
  unfold kvChanges at h
  rw [List.mem_append] at h
  rcases h with h | h
  · simp only [List.mem_filterMap] at h
    obtain ⟨k, hk, hfk⟩ := h
    cases h1 : lookupKV k olds with
    | none =>
      cases h2 : lookupKV k news with
      | none =>
        simp only [h1, h2] at hfk
        exact Option.noConfusion hfk
      | some v =>
        simp only [h1, h2, Option.some_inj] at hfk
        subst hfk
        exact ⟨rfl, rfl, rfl, Or.inr rfl, show ("insert" : String) ≠ "file-deleted" by decide⟩
    | some ov =>
      cases h2 : lookupKV k news with
      | none =>
        simp only [h1, h2] at hfk
        exact Option.noConfusion hfk
      | some nv =>
        simp only [h1, h2] at hfk
        by_cases hv : ov = nv
        · rw [if_pos hv] at hfk
          simp at hfk
        · rw [if_neg hv] at hfk
          rw [Option.some_inj] at hfk
          subst hfk
          exact ⟨rfl, rfl, rfl, Or.inl rfl, show ("replace" : String) ≠ "file-deleted" by decide⟩
  · simp only [List.mem_filterMap] at h
    obtain ⟨k, hk, hfk⟩ := h
    cases h2 : lookupKV k news with
    | some v =>
      simp only [h2] at hfk
      exact Option.noConfusion hfk
    | none =>
      cases h1 : lookupKV k olds with
      | none =>
        simp only [h1, h2] at hfk
        exact Option.noConfusion hfk
      | some ov =>
        simp only [h1, h2, Option.map_some', Option.some_inj] at hfk
        subst hfk
        exact ⟨rfl, rfl, rfl, Or.inl rfl, show ("delete" : String) ≠ "file-deleted" by decide⟩

theorem lineDiff_pairExclusive {path : String} {olds news : List String} {r : Record}
    (h : r ∈ lineDiff path olds news) : recordPairExclusive r := by
  obtain ⟨hctx, hold, hnew, hol, hnl, _⟩ := mem_lineDiff h
  refine ⟨fun hc => ?_, fun _ => ⟨hold, hnew, hol, hnl⟩⟩
  rcases hc with hc | hc <;> rw [hctx] at hc <;> exact absurd hc (by decide)

theorem mem_extract {path : String} {oldC newC : Option String} {r : Record}
    (h : r ∈ extract path oldC newC) :
    r = { file := path, change_type := "file-deleted", context := "block",
          line_old := some 1, line_new := none, property := none,
          old := none, new := none, old_lines := some [], new_lines := some [] } ∨
    (∃ olds news, r ∈ lineDiff path olds news) ∨
    (∃ ctx olds news, (ctx = "plist-kv" ∨ ctx = "kv") ∧ r ∈ kvChanges path ctx olds news) := by
  unfold extract at h
  cases newC with
  | none =>
    rw [List.mem_singleton] at h
    exact Or.inl h
  | some newS =>
    cases hdf : detectFormat path with
    | none =>
      simp only [hdf] at h
      exact Or.inr (Or.inl ⟨_, _, h⟩)
    | some ctx =>
      simp only [hdf] at h
      have hctxval : ctx = "plist-kv" ∨ ctx = "kv" := by
        unfold detectFormat at hdf
        split_ifs at hdf with hp hj
        · exact Or.inl (Option.some.inj hdf).symm
        · exact Or.inr (Option.some.inj hdf).symm
      cases hp1 : parseKV (oldC.getD "") with
      | none =>
        simp only [hp1] at h
        exact Or.inr (Or.inl ⟨_, _, h⟩)
      | some ops =>
        cases hp2 : parseKV newS with
        | none =>
          simp only [hp1, hp2] at h
          exact Or.inr (Or.inl ⟨_, _, h⟩)
        | some nps =>
          simp only [hp1, hp2] at h
          exact Or.inr (Or.inr ⟨ctx, ops, nps, hctxval, h⟩)

/-- Claim C6: every Change Record the system produces observes the
context-determined pair exclusivity — kv/plist-kv records populate `old`/`new`
and leave the line-content fields unpopulated, block records populate the
line-content fields and leave `old`/`new` unpopulated; every record of the
built-in sample dataset satisfies it; and the renderer reads only the field
pair selected by `context` (its output is unchanged under any alteration of
the non-selected pair). -/
theorem pair_exclusivity (path : String) (oldC newC : Option String) :
    (∀ r ∈ extract path oldC newC, recordPairExclusive r) ∧
    (∀ r ∈ sampleData, recordPairExclusive r) ∧
    (∀ (ch : Record) (v w : Option (List String)),
      ch.context = "kv" ∨ ch.context = "plist-kv" →
      renderChangeItem { ch with old_lines := v, new_lines := w } = renderChangeItem ch) ∧
    (∀ (ch : Record) (a b : Option String),
      ch.context ≠ "kv" → ch.context ≠ "plist-kv" →
      renderChangeItem { ch with old := a, new := b } = renderChangeItem ch) := by
  refine ⟨?_, by decide, ?_, ?_⟩
  · intro r hr
    rcases mem_extract hr with rfl | ⟨olds, news, hld⟩ | ⟨ctx, ops, nps, hcv, hkv⟩
    · refine ⟨fun hc => ?_, fun _ => ⟨rfl, rfl, rfl, rfl⟩⟩
      rcases hc with hc | hc
      · exact absurd hc (show ("block" : String) ≠ "kv" by decide)
      · exact absurd hc (show ("block" : String) ≠ "plist-kv" by decide)
    · exact lineDiff_pairExclusive hld
    · obtain ⟨hctx, hol, hnl, hon, _⟩ := mem_kvChanges hkv
      refine ⟨fun _ => ⟨hol, hnl, hon⟩, fun hb => ?_⟩
      rcases hcv with hcv | hcv <;> rw [hctx, hcv] at hb <;> exact absurd hb (by decide)
  · intro ch v w hc
    rcases hc with hc | hc <;> simp [renderChangeItem, lineLabel, hc]
  · intro ch a b h1 h2
    simp [renderChangeItem, lineLabel, h1, h2]

/-- Witness for the exclusivity claim: the block `replace` record the Extractor
emits for a one-line change is in its output and satisfies the invariant. -/
theorem pair_exclusivity_witness :
    ({ file := "a.txt", change_type := "replace", context := "block",
       line_old := some 1, line_new := some 1, property := none, old := none,
       new := none, old_lines := some ["x"], new_lines := some ["y"] } : Record)
      ∈ extract "a.txt" (some "x\n") (some "y\n") ∧
    recordPairExclusive
      { file := "a.txt", change_type := "replace", context := "block",
        line_old := some 1, line_new := some 1, property := none, old := none,
        new := none, old_lines := some ["x"], new_lines := some ["y"] } :=
  ⟨by decide,
    (pair_exclusivity "a.txt" (some "x\n") (some "y\n")).1 _ (by decide)⟩

/-- Claim C7: every `file-deleted` record has both line-content fields empty
(the line-number fields remaining free); the built-in sample's `file-deleted`
record has `old_lines = []`, `new_lines = []` (with `line_old = 1`,
`line_new = null`); and the Presenter renders any such (block-context) record
as the "File removed" card, which shows no line content. -/
theorem file_deleted_empty_line_content (path : String) (oldC newC : Option String) :
    (∀ r ∈ extract path oldC newC, r.change_type = "file-deleted" →
      r.old_lines = some [] ∧ r.new_lines = some []) ∧
    (∀ r ∈ sampleData, r.change_type = "file-deleted" →
      r.old_lines = some [] ∧ r.new_lines = some [] ∧
        r.line_old = some 1 ∧ r.line_new = none) ∧
    (∃ r ∈ sampleData, r.change_type = "file-deleted") ∧
    (∀ ch : Record, ch.change_type = "file-deleted" → ch.context ≠ "kv" →
      ch.context ≠ "plist-kv" →
      renderChangeItem ch = RenderedCard.fileDeletedCard "file-deleted") := by
  refine ⟨?_, by decide, by decide, ?_⟩
  · intro r hr hct
    rcases mem_extract hr with rfl | ⟨olds, news, hld⟩ | ⟨ctx, ops, nps, hcv, hkv⟩
    · exact ⟨rfl, rfl⟩
    · exact absurd hct (mem_lineDiff hld).2.2.2.2.2
    · exact absurd hct (mem_kvChanges hkv).2.2.2.2
  · intro ch h1 h2 h3
    simp [renderChangeItem, h1, h2, h3]

/-- Witness for the file-deleted claim: the record the Extractor emits for an
absent new file is in its output and has empty line-content fields. -/
theorem file_deleted_empty_line_content_witness :
    ({ file := "b.txt", change_type := "file-deleted", context := "block",
       line_old := some 1, line_new := none, property := none, old := none,
       new := none, old_lines := some [], new_lines := some [] } : Record)
      ∈ extract "b.txt" (some "x\n") none ∧
    (({ file := "b.txt", change_type := "file-deleted", context := "block",
        line_old := some 1, line_new := none, property := none, old := none,
        new := none, old_lines := some [], new_lines := some [] } : Record).old_lines
          = some [] ∧
      ({ file := "b.txt", change_type := "file-deleted", context := "block",
         line_old := some 1, line_new := none, property := none, old := none,
         new := none, old_lines := some [], new_lines := some [] } : Record).new_lines
          = some []) :=
  ⟨by decide,
    (file_deleted_empty_line_content "b.txt" (some "x\n") none).1 _ (by decide) (by decide)⟩



/-- Witness for the amended filtering claim at a concrete search and record:
the filter's verdict coincides with the amended predicate. -/
theorem applyFilters_keeps_exactly_witness :
    keepRecord (trimStr (toLowerStr "IntuneCD")) "" ""
        { file := "Scripts/Powershell/Script Data/intunecd_appreg.ps1",
          property := none, line_old := some 14, line_new := some 14,
          context := "block",
          old_lines := some ["$appName = \"IntuneCD-Monitor\""],
          new_lines := some ["$appName = \"IntuneCD\""],
          change_type := "replace", old := none, new := none } = true ↔
      claimKeepAmended "IntuneCD" "" ""
        { file := "Scripts/Powershell/Script Data/intunecd_appreg.ps1",
          property := none, line_old := some 14, line_new := some 14,
          context := "block",
          old_lines := some ["$appName = \"IntuneCD-Monitor\""],
          new_lines := some ["$appName = \"IntuneCD\""],
          change_type := "replace", old := none, new := none } :=
  applyFilters_keeps_exactly.2.1 "IntuneCD" "" "" _

/-- Witness for the load claim at the initial viewer state, a JSON file type,
and the sample dataset as the parsed array. -/
theorem load_replaces_data_iff_array_witness :
    typeMatchesJsonOrText "application/json" = true ∧
    (fileInputChange
        { DATA := [], LAST_FILTERED := [], PAGE := 1, PAGE_SIZE := .num 50,
          qInput := "", typeFilter := "", ctxFilter := "" }
        (some (Except.ok (JsonRoot.arr sampleData)))).state =
      applyFiltersState
        { DATA := sampleData, LAST_FILTERED := [], PAGE := 1, PAGE_SIZE := .num 50,
          qInput := "", typeFilter := "", ctxFilter := "" } :=
  ⟨by decide,
    (load_replaces_data_iff_array
      { DATA := [], LAST_FILTERED := [], PAGE := 1, PAGE_SIZE := .num 50,
        qInput := "", typeFilter := "", ctxFilter := "" }
      "x" "application/json" sampleData (by decide)).1⟩


end GitDiffer
